import Mathlib

/-!
# Verification of the NFL-Matchups matchup/ranking aggregation engine

This file is a shallow embedding, in Lean 4, of the core aggregation and
odds logic of the NFL-Matchups repository:

* `betting_analyzer.py` (`BettingAnalyzer`): implied probability, expected
  value, Kelly sizing and parlay combination over American odds.  Python
  floats are idealised as exact rationals (`ℚ`); the unguarded division by
  zero that Python would raise as `ZeroDivisionError` is modelled by an
  `Option` result.
* `nfl_app.py` / `pages/1_🏈_NFL.py`: the position filter, the defense
  aggregation (`get_defense_stats`), the leader aggregation (`get_leaders`),
  the consistency tab, and the weekly matchup flags.  A pandas DataFrame is
  modelled as a list of rows together with an explicit schema (the set of
  numeric measure columns that are present); a null (NaN) entry of a present
  column is an `Option` that is `none`.  `groupby` emits one group per
  distinct key in ascending key order (pandas `sort=True` default).
  `sort_values(ascending=False)` is treated at two levels: the guaranteed
  contract `IsSortValuesDescOf` (some permutation of the input that is
  weakly descending on the key — the default `kind='quicksort'` is not
  stable, so the relative order of tied entries is not specified), and one
  deterministic refinement `sortDescBy` (a stable descending sort), used
  where a theorem depends only on which rows appear, never on the order of
  tied rows.
* `analysis.py` (`get_td_leaders`): the touchdown leader table with its
  position-dependent `total_tds` derivation.
* The consistency statistics use real numbers (`ℝ`) because the sample
  standard deviation takes a square root.  Pandas semantics modelled here:
  `count`, `mean`, `std`, `min`, `max` all skip nulls; `std` of fewer than
  two observations is NaN, and the coefficient of variation at a zero mean
  is non-finite — both are modelled as `none`, and theorems about ratings
  assume no zero-mean multi-game player so that no non-finite float arises.
-/

namespace NFLMatchups

/-! ## Data model -/

/-- The numeric measure columns the apps aggregate
(`nfl_app.py` line 113 and `pages/1_🏈_NFL.py` line 141). -/
inductive StatCol
  | passing_tds
  | rushing_tds
  | receiving_tds
  | passing_yards
  | rushing_yards
  | receiving_yards
  | fantasy_points_ppr
  deriving DecidableEq, Repr

/-- The fixed order in which the apps request aggregation columns. -/
def statColOrder : List StatCol :=
  [.passing_tds, .rushing_tds, .receiving_tds, .passing_yards,
   .rushing_yards, .receiving_yards, .fantasy_points_ppr]

/-- The three touchdown columns (whose display names contain `Td`). -/
def tdColsList : List StatCol := [.passing_tds, .rushing_tds, .receiving_tds]

/-- The three yardage columns. -/
def ydsColsList : List StatCol := [.passing_yards, .rushing_yards, .receiving_yards]

/-- One `PlayerGameRecord` row.  `stats c = none` models a null (NaN) entry
of a present column; whether the column exists at all is recorded in the
enclosing `Table.schema`. -/
structure Row where
  player : String
  team : String
  opponent_team : String
  position : String
  week : Int
  stats : StatCol → Option ℚ

/-- A player-stats DataFrame: the set of measure columns present plus the rows. -/
structure Table where
  schema : List StatCol
  rows : List Row

/-- One `ScheduledGame` row. -/
structure Game where
  week : Int
  game_type : String
  home_team : String
  away_team : String
  deriving DecidableEq, Repr

/-! ## Generic list machinery: groupby keys, stable sorts, null-skipping sums -/

/-- pandas `groupby` keys: the distinct key values in ascending order. -/
def sortedKeys (l : List String) : List String :=
  l.dedup.insertionSort (· ≤ ·)

/-- pandas column `sum` over a group: nulls contribute 0. -/
def sumCol (rs : List Row) (c : StatCol) : ℚ :=
  (rs.map (fun r => (r.stats c).getD 0)).sum

/-- One deterministic refinement of pandas
`sort_values(by=m, ascending=False)`: a stable descending insertion sort
on the measure `m`.  The code's default `kind='quicksort'` fixes no tie
order, so theorems may rely on this refinement only through properties
every admissible sort output shares (its multiset of rows and its
descending order) — tie-order questions go through `IsSortValuesDescOf`. -/
def sortDescBy (m : α → ℚ) (l : List α) : List α :=
  l.insertionSort (fun a b => m b ≤ m a)

/-- The same refinement for a string-valued sort column. -/
def sortDescByStr (m : α → String) (l : List α) : List α :=
  l.insertionSort (fun a b => m b ≤ m a)

/-- The contract pandas guarantees for
`sort_values(by=m, ascending=False)` with the default `kind='quicksort'`:
the output is some permutation of the input that is weakly descending on
`m`.  quicksort is not stable (numpy's introsort reorders equal elements
on partitions over 16 entries), so nothing constrains the relative order
of entries tied on `m`. -/
def IsSortValuesDescOf (m : α → ℚ) (input output : List α) : Prop :=
  List.Perm output input ∧ output.Pairwise fun a b => m b ≤ m a

/-! ## OddsMath: `betting_analyzer.py`, class `BettingAnalyzer` -/

/-- Model of `BettingAnalyzer.calculate_implied_probability` (lines 15-32):
favorite (`odds < 0`): `(-odds) / (-odds + 100)`; otherwise
`100 / (odds + 100)`; returned as a percentage. -/
def calculate_implied_probability (odds : ℤ) : ℚ :=
  (if odds < 0 then (-(odds : ℚ)) / (-(odds : ℚ) + 100)
   else 100 / ((odds : ℚ) + 100)) * 100

/-- Model of `BettingAnalyzer.calculate_ev` (lines 34-52). -/
def calculate_ev (win_probability : ℚ) (odds : ℤ) (stake : ℚ) : ℚ :=
  let potential_profit : ℚ :=
    if odds < 0 then stake * (100 / |(odds : ℚ)|)
    else stake * ((odds : ℚ) / 100)
  win_probability * potential_profit - (1 - win_probability) * stake

/-- The decimal odds of one American-odds leg, as computed inside
`kelly_criterion` (lines 102-105) and `parlay_calculator` (lines 203-207). -/
def legDecimal (odds : ℤ) : ℚ :=
  if odds < 0 then 1 + 100 / |(odds : ℚ)| else 1 + (odds : ℚ) / 100

/-- Model of `BettingAnalyzer.kelly_criterion` (lines 89-118).  At `odds = 0` the
decimal odds are 1, so `b = 0` and the Python division `(b*p - q) / b`
raises `ZeroDivisionError`; that failure is modelled as `none`. -/
def kelly_criterion (win_prob : ℚ) (odds : ℤ) (bankroll : ℚ)
    (kelly_fraction : ℚ) : Option ℚ :=
  let b := legDecimal odds - 1
  if b = 0 then none
  else
    let p := win_prob
    let q := 1 - p
    let kelly_percentage := (b * p - q) / b
    some (bankroll * max 0 (kelly_percentage * kelly_fraction))

/-- The combined decimal odds of a parlay (`parlay_calculator`, lines 197-209). -/
def parlay_decimal (legs : List ℤ) : ℚ :=
  (legs.map legDecimal).prod

/-- The combined implied probability of a parlay (lines 211-213), as a
fraction in `[0, 1]`. -/
def parlay_prob (legs : List ℤ) : ℚ :=
  (legs.map (fun o => calculate_implied_probability o / 100)).prod

/-- The combined American odds of a parlay (lines 215-219).  When the
combined decimal odds are exactly 1 the `else` branch divides by zero
(`ZeroDivisionError`), modelled as `none`. -/
def parlay_american (legs : List ℤ) : Option ℚ :=
  let d := parlay_decimal legs
  if 2 ≤ d then some ((d - 1) * 100)
  else if d = 1 then none
  else some (-100 / (d - 1))

/-! ## PositionFilter and DefenseAggregator -/

/-- The position filter (`nfl_app.py` line 110, `pages/1_🏈_NFL.py` line 137):
keep the rows whose raw position code is in the requested group. -/
def posFilter (t : Table) (codes : List String) : List Row :=
  t.rows.filter (fun r => r.position ∈ codes)

/-- The aggregation columns of `get_defense_stats` / `get_leaders`
(`nfl_app.py` lines 112-115): the fixed column list, restricted to the
columns present in the input schema, in the fixed order. -/
def aggCols (t : Table) : List StatCol :=
  statColOrder.filter (· ∈ t.schema)

/-- Model of `get_defense_stats` (`nfl_app.py` lines 109-123): filter by position,
return an empty table if no aggregation column is present, otherwise group
by `opponent_team` (pandas emits one group per distinct key, in ascending
key order) and sum each present column, nulls contributing 0.  A result row
is the opponent team code paired with the aggregated columns. -/
def get_defense_stats (t : Table) (codes : List String) :
    List (String × List (StatCol × ℚ)) :=
  let pos := posFilter t codes
  if aggCols t = [] then []
  else
    (sortedKeys (pos.map (·.opponent_team))).map fun k =>
      (k, (aggCols t).map fun c =>
            (c, sumCol (pos.filter fun r => r.opponent_team = k) c))

/-- The sort column of the worst-defenses tab (`nfl_app.py` lines 319-320):
the first aggregated column whose display name contains `Td`, else the
first aggregated column (`defense_stats.columns[1]`); `none` when the
table is empty. -/
def defSortCol (t : Table) : Option StatCol :=
  match (aggCols t).filter (· ∈ tdColsList) with
  | c :: _ => some c
  | [] => (aggCols t).head?

/-- The value of a defense-ranking row in column `c` (0 if absent;
only read for present columns). -/
def defValue (c : StatCol) (row : String × List (StatCol × ℚ)) : ℚ :=
  (row.2.lookup c).getD 0

/-- The worst-defenses view (`nfl_app.py` line 321):
`defense_stats.sort_values(sort_col, ascending=False)`, under the
`sortDescBy` refinement.  Every such view satisfies `IsSortValuesDescOf`;
the actual quicksort may realise any admissible output. -/
def worst_defense_view (t : Table) (codes : List String) :
    List (String × List (StatCol × ℚ)) :=
  match defSortCol t with
  | some c => sortDescBy (defValue c) (get_defense_stats t codes)
  | none => get_defense_stats t codes

/-! ## LeaderAggregator: `nfl_app.py` `get_leaders` (lines 424-475) -/

/-- The touchdown columns present in the schema (`nfl_app.py` line 449). -/
def tdColsIn (t : Table) : List StatCol := tdColsList.filter (· ∈ t.schema)

/-- The yardage columns present in the schema (`nfl_app.py` line 450). -/
def ydsColsIn (t : Table) : List StatCol := ydsColsList.filter (· ∈ t.schema)

/-- One row of the leader table: the player, the `'last'`-aggregated team,
the per-column sums, and the derived totals (absent when no contributing
column is in the schema). -/
structure LeaderRow where
  player : String
  team : String
  sums : List (StatCol × ℚ)
  totalTDs : Option ℚ
  totalYds : Option ℚ
  deriving DecidableEq, Repr

/-- The groupby/aggregate stage of `get_leaders` (`nfl_app.py` lines
430-455): group by player (ascending key order), aggregate the team column
with `'last'` (last row of the group in input order) and every present
measure column with `fillna(0)` + `sum`, then derive `Total TDs` /
`Total Yards` as the row-wise sum of the present contributing columns. -/
def leaders_agg (t : Table) (codes : List String) : List LeaderRow :=
  let pos := posFilter t codes
  (sortedKeys (pos.map (·.player))).map fun p =>
    let g := pos.filter fun r => r.player = p
    { player := p
      team := ((g.getLast?).map (·.team)).getD ""
      sums := (aggCols t).map fun c => (c, sumCol g c)
      totalTDs :=
        if tdColsIn t = [] then none
        else some ((tdColsIn t).map (fun c => sumCol g c)).sum
      totalYds :=
        if ydsColsIn t = [] then none
        else some ((ydsColsIn t).map (fun c => sumCol g c)).sum }

/-- The radio-button sort options of the Top Scorers tab. -/
inductive SortOpt
  | touchdowns
  | yards
  | fantasyPoints
  deriving DecidableEq, Repr

/-- Model of `get_leaders` (`nfl_app.py` lines 424-475): empty result on an empty
position slice, otherwise the aggregated rows sorted descending on the
selected derived column and truncated to the top 15.  When the selected
derived column is absent the code falls back to `leaders.columns[1]`,
which is the team column (a descending string sort). -/
def get_leaders (t : Table) (codes : List String) (sortOption : SortOpt) :
    List LeaderRow :=
  let pos := posFilter t codes
  if pos.isEmpty then []
  else
    let L := leaders_agg t codes
    let sorted :=
      match sortOption with
      | .touchdowns =>
          if tdColsIn t = [] then sortDescByStr (fun r : LeaderRow => r.team) L
          else sortDescBy (fun r => r.totalTDs.getD 0) L
      | .yards =>
          if ydsColsIn t = [] then sortDescByStr (fun r : LeaderRow => r.team) L
          else sortDescBy (fun r => r.totalYds.getD 0) L
      | .fantasyPoints =>
          if StatCol.fantasy_points_ppr ∈ t.schema then
            sortDescBy (fun r : LeaderRow =>
              (r.sums.lookup StatCol.fantasy_points_ppr).getD 0) L
          else sortDescByStr (fun r : LeaderRow => r.team) L
    sorted.take 15

/-! ## Touchdown leaders: `analysis.py` `get_td_leaders` (lines 182-203) -/

/-- One row of the `get_td_leaders` table. -/
structure TdLeaderRow where
  player : String
  rushing_tds : ℚ
  receiving_tds : ℚ
  passing_tds : ℚ
  total_tds : ℚ
  recent_team : String
  position : String
  deriving DecidableEq, Repr

/-- The per-record `total_tds` column added by `get_td_leaders`
(`analysis.py` lines 186-190): `passing + rushing` for the QB group,
`rushing + receiving` otherwise, nulls filled with 0. -/
def rowTotalTds (isQB : Bool) (r : Row) : ℚ :=
  if isQB then (r.stats .passing_tds).getD 0 + (r.stats .rushing_tds).getD 0
  else (r.stats .rushing_tds).getD 0 + (r.stats .receiving_tds).getD 0

/-- Model of `get_td_leaders` (`analysis.py` lines 182-203): filter by position, add
the per-record `total_tds` column, group by player summing the three TD
columns and `total_tds` (team `'last'`, position `'first'`), then sort
descending on `passing_tds` for the QB group and on `total_tds` otherwise,
truncated to the top 10.  The code indexes all three TD columns
unconditionally, so this models the run where they are present. -/
def get_td_leaders (t : Table) (codes : List String) (isQB : Bool) :
    List TdLeaderRow :=
  let pos := posFilter t codes
  let L := (sortedKeys (pos.map (·.player))).map fun p =>
    let g := pos.filter fun r => r.player = p
    { player := p
      rushing_tds := sumCol g .rushing_tds
      receiving_tds := sumCol g .receiving_tds
      passing_tds := sumCol g .passing_tds
      total_tds := (g.map (rowTotalTds isQB)).sum
      recent_team := ((g.getLast?).map (·.team)).getD ""
      position := ((g.head?).map (·.position)).getD "" : TdLeaderRow }
  (if isQB then sortDescBy (·.passing_tds) L else sortDescBy (·.total_tds) L).take 10

/-! ## MatchupMatcher: `nfl_app.py` lines 352-390 -/

/-- One favorable-matchup flag: the game, the offense flagged, the weak
opposing defense, the position group, and the opponent's 1-based rank in
that position's weak-defense list. -/
structure MatchupFlag where
  game : Game
  offense : String
  opponent : String
  pos : String
  rank : Nat
  deriving DecidableEq, Repr

/-- The 1-based rank of a team inside a weak-defense list
(`weak_teams.index(team) + 1`, `nfl_app.py` lines 382 and 389). -/
def rankIn (team : String) (l : List String) : Nat :=
  l.indexOf team + 1

/-- The matchup loop of the This Week's Matchups tab (`nfl_app.py` lines
352-390): restrict the schedule to the selected week's regular-season
games; for each game, flag the away offense at each position whose weak-
defense list contains the home team, then the home offense likewise
against the away team. -/
def matchup_flags (sched : List Game) (w : Int)
    (weakDefs : List (String × List String)) : List MatchupFlag :=
  let games := sched.filter fun g => g.week = w ∧ g.game_type = "REG"
  games.flatMap fun g =>
    (weakDefs.filterMap fun pw =>
      if g.home_team ∈ pw.2 then
        some ⟨g, g.away_team, g.home_team, pw.1, rankIn g.home_team pw.2⟩
      else none) ++
    (weakDefs.filterMap fun pw =>
      if g.away_team ∈ pw.2 then
        some ⟨g, g.home_team, g.away_team, pw.1, rankIn g.away_team pw.2⟩
      else none)

/-! ## ConsistencyAnalyzer: `nfl_app.py` lines 509-579 (the same pipeline
appears in `pages/1_🏈_NFL.py` lines 443-575, without the `max_cv > 0`
guard).  Python floats are idealised as exact reals. -/

/-- pandas `mean` of the non-null observations.  (On an empty list this
yields the junk value 0; the pipeline never reads it, since such players
have `count = 0` and pandas would yield NaN.) -/
noncomputable def pmean (xs : List ℝ) : ℝ := xs.sum / xs.length

/-- pandas sample standard deviation (`ddof = 1`).  Only meaningful for
`2 ≤ xs.length`; pandas yields NaN below that, which `cvOpt` handles. -/
noncomputable def sampleStd (xs : List ℝ) : ℝ :=
  Real.sqrt ((xs.map fun x => (x - pmean xs) ^ 2).sum / (xs.length - 1))

/-- pandas `min` of the observations (junk value 0 on an empty list,
never read: such players are filtered out). -/
noncomputable def listMin : List ℝ → ℝ
  | [] => 0
  | x :: xs => xs.foldl min x

/-- pandas `max` of the observations (junk value 0 on an empty list). -/
noncomputable def listMax : List ℝ → ℝ
  | [] => 0
  | x :: xs => xs.foldl max x

/-- The coefficient of variation `(StdDev / Avg) * 100` (`nfl_app.py`
line 533).  `none` models the non-finite float cases: fewer than two
observations (NaN standard deviation) and a zero mean (infinite or NaN
CV); theorems that read ratings assume the zero-mean case is absent. -/
noncomputable def cvOpt (xs : List ℝ) : Option ℝ :=
  if 2 ≤ xs.length ∧ pmean xs ≠ 0 then some (sampleStd xs / pmean xs * 100)
  else none

/-- pandas `max` over the CV column: NaN entries (`none`) are skipped,
and the result is `none` (NaN) when no CV is defined. -/
noncomputable def listMaxOpt (l : List ℝ) : Option ℝ :=
  match l with
  | [] => none
  | x :: xs => some (xs.foldl max x)

/-- The rating assignment (`nfl_app.py` lines 534-538): when `max_cv > 0`,
`100 - CV / max_cv * 100` (`none`, i.e. NaN, for a row whose own CV is
undefined); otherwise the scalar fallback rates every player 100.  A NaN
maximum (no defined CV at all) fails the `max_cv > 0` test and also rates
every player 100. -/
noncomputable def ratingOf (maxCV : Option ℝ) (cv : Option ℝ) : Option ℝ :=
  match maxCV with
  | some M => if 0 < M then cv.map (fun c => 100 - c / M * 100) else some 100
  | none => some 100

/-- One row of the consistency table (`Player / Avg / StdDev / Games /
Min / Max / CV / Consistency Rating`). -/
structure ConsRow where
  player : String
  avg : ℝ
  stdDev : ℝ
  games : Nat
  floor : ℝ
  ceiling : ℝ
  cv : Option ℝ
  rating : Option ℝ

/-- The non-null observations of the analysed statistic for one player of
the position slice (pandas aggregations skip NaN entries). -/
def playerVals (t : Table) (codes : List String) (sc : StatCol) (p : String) :
    List ℚ :=
  (((posFilter t codes).filter fun r => r.player = p).filterMap fun r => r.stats sc)

/-- The same observations as exact reals. -/
noncomputable def playerValsR (t : Table) (codes : List String) (sc : StatCol)
    (p : String) : List ℝ :=
  (playerVals t codes sc p).map fun q => (q : ℝ)

/-- The cohort maximum CV (`nfl_app.py` line 534): taken over every player
of the position slice — the `Games >= 3` filter runs only afterwards
(line 539). -/
noncomputable def cohortMaxCV (t : Table) (codes : List String) (sc : StatCol) :
    Option ℝ :=
  listMaxOpt ((sortedKeys ((posFilter t codes).map (·.player))).filterMap
    fun p => cvOpt (playerValsR t codes sc p))

/-- The consistency tab pipeline (`nfl_app.py` lines 527-539): group the
position slice by player, aggregate mean/std/count/min/max of the chosen
statistic, derive CV and the normalized rating, then keep the players with
at least 3 observations. -/
noncomputable def consistency_table (t : Table) (codes : List String)
    (sc : StatCol) : List ConsRow :=
  (((sortedKeys ((posFilter t codes).map (·.player))).map fun p =>
    { player := p
      avg := pmean (playerValsR t codes sc p)
      stdDev := sampleStd (playerValsR t codes sc p)
      games := (playerValsR t codes sc p).length
      floor := listMin (playerValsR t codes sc p)
      ceiling := listMax (playerValsR t codes sc p)
      cv := cvOpt (playerValsR t codes sc p)
      rating := ratingOf (cohortMaxCV t codes sc) (cvOpt (playerValsR t codes sc p))
      : ConsRow }).filter fun r => 3 ≤ r.games)

/-- Modelled from the spec: the normalization constant the claim describes,
the maximum CV over the players of the returned result set only (those
with at least 3 observations), for comparison with `cohortMaxCV`. -/
noncomputable def specResultSetMaxCV (t : Table) (codes : List String)
    (sc : StatCol) : Option ℝ :=
  listMaxOpt (((sortedKeys ((posFilter t codes).map (·.player))).filter
    fun p => 3 ≤ (playerValsR t codes sc p).length).filterMap
    fun p => cvOpt (playerValsR t codes sc p))

/-- Modelled from the spec: `consistency_table` with the claimed
result-set-relative normalization, for comparison with the code's
pipeline. -/
noncomputable def consistency_table_specNormalized (t : Table)
    (codes : List String) (sc : StatCol) : List ConsRow :=
  (((sortedKeys ((posFilter t codes).map (·.player))).map fun p =>
    { player := p
      avg := pmean (playerValsR t codes sc p)
      stdDev := sampleStd (playerValsR t codes sc p)
      games := (playerValsR t codes sc p).length
      floor := listMin (playerValsR t codes sc p)
      ceiling := listMax (playerValsR t codes sc p)
      cv := cvOpt (playerValsR t codes sc p)
      rating := ratingOf (specResultSetMaxCV t codes sc)
        (cvOpt (playerValsR t codes sc p))
      : ConsRow }).filter fun r => 3 ≤ r.games)

/-! ## Concrete fixtures for witnesses and counterexamples -/

/-- A fixture row. -/
def mkRow (pl tm opp posn : String) (wk : Int) (s : StatCol → Option ℚ) : Row :=
  { player := pl, team := tm, opponent_team := opp, position := posn,
    week := wk, stats := s }

/-- Fixture stats: a single fantasy-points value. -/
def fpStats (v : ℚ) : StatCol → Option ℚ
  | .fantasy_points_ppr => some v
  | _ => none

/-- Fixture stats: a receiving-touchdowns entry (possibly null). -/
def retdStats (v : Option ℚ) : StatCol → Option ℚ
  | .receiving_tds => v
  | _ => none

/-- Fixture stats: a passing-touchdowns entry (possibly null). -/
def ptdStats (v : Option ℚ) : StatCol → Option ℚ
  | .passing_tds => v
  | _ => none

/-- Fixture stats: values in all three TD columns. -/
def tdStats (ptd rtd retd : ℚ) : StatCol → Option ℚ
  | .passing_tds => some ptd
  | .rushing_tds => some rtd
  | .receiving_tds => some retd
  | _ => none

/-- C1 fixture: an RB cohort where player `N` has a negative average
(fantasy points can be negative), player `P` the mirrored positive one. -/
def tNeg : Table :=
  { schema := [.fantasy_points_ppr]
    rows := [ mkRow "N" "TN" "OPP" "RB" 1 (fpStats (-4)),
              mkRow "N" "TN" "OPP" "RB" 2 (fpStats 0),
              mkRow "N" "TN" "OPP" "RB" 3 (fpStats (-2)),
              mkRow "P" "TP" "OPP" "RB" 1 (fpStats 4),
              mkRow "P" "TP" "OPP" "RB" 2 (fpStats 0),
              mkRow "P" "TP" "OPP" "RB" 3 (fpStats 2) ] }

/-- C2 fixture: player `A` has 3 games, player `B` only 2 — `B` is
excluded from the output but holds the maximum CV. -/
def tCohort : Table :=
  { schema := [.fantasy_points_ppr]
    rows := [ mkRow "A" "TA" "OPP" "WR" 1 (fpStats 0),
              mkRow "A" "TA" "OPP" "WR" 2 (fpStats 2),
              mkRow "A" "TA" "OPP" "WR" 3 (fpStats 4),
              mkRow "B" "TB" "OPP" "WR" 1 (fpStats 0),
              mkRow "B" "TB" "OPP" "WR" 2 (fpStats 8) ] }

/-- C5 fixture: a quarterback with passing, rushing AND receiving
touchdowns in the same game. -/
def tQBmix : Table :=
  { schema := [.passing_tds, .rushing_tds, .receiving_tds]
    rows := [ mkRow "Q" "TQ" "OPP" "QB" 1 (tdStats 2 1 1) ] }

/-- C4/C8 fixture: WR production against three opponents, with one null
entry, and a tie between `AAA` and `BBB` on the receiving-TD sum. -/
def tDef : Table :=
  { schema := [.receiving_tds]
    rows := [ mkRow "w1" "T1" "BBB" "WR" 1 (retdStats (some 5)),
              mkRow "w2" "T2" "AAA" "WR" 1 (retdStats (some 3)),
              mkRow "w3" "T3" "AAA" "WR" 2 (retdStats none),
              mkRow "w4" "T4" "AAA" "WR" 3 (retdStats (some 2)),
              mkRow "w5" "T5" "CCC" "WR" 1 (retdStats (some 2)) ] }

/-- C7 fixture: an input with no aggregation column at all. -/
def tEmptySchema : Table :=
  { schema := []
    rows := [ mkRow "q1" "TT" "OPP" "QB" 1 (ptdStats (some 2)) ] }

/-- C7 fixture: only `passing_tds` present, and one null entry for the
player. -/
def tMissing : Table :=
  { schema := [.passing_tds]
    rows := [ mkRow "q1" "TT" "OPP" "QB" 1 (ptdStats (some 2)),
              mkRow "q1" "TT" "OP2" "QB" 2 (ptdStats none) ] }

/-- C9 fixture: the spec scenario game `TeamX @ TeamB` in week 7. -/
def gX : Game :=
  { week := 7, game_type := "REG", home_team := "TeamB", away_team := "TeamX" }

/-- C9 fixture: `TeamB` is rank 1 in the WR weak-defense set and no other
weak-defense membership applies. -/
def weakX : List (String × List String) :=
  [("QB", []), ("RB", []), ("WR", ["TeamB"]), ("TE", [])]

end NFLMatchups

namespace NFLMatchups

/-! ## Theorems: OddsMath -/

/-- Helper: for nonzero odds each leg has decimal odds strictly above 1. -/
lemma one_lt_legDecimal {odds : ℤ} (h : odds ≠ 0) : 1 < legDecimal odds := by
  unfold legDecimal
  rcases lt_or_ge odds 0 with hneg | hpos
  · rw [if_pos hneg]
    have h1 : (0 : ℚ) < |(odds : ℚ)| := by
      rw [abs_pos]
      exact_mod_cast h
    have : (0 : ℚ) < 100 / |(odds : ℚ)| := by positivity
    linarith
  · rw [if_neg (not_lt.mpr hpos)]
    have h1 : (1 : ℤ) ≤ odds := lt_of_le_of_ne hpos (Ne.symm h)
    have h1' : (1 : ℚ) ≤ (odds : ℚ) := by exact_mod_cast h1
    have : (0 : ℚ) < (odds : ℚ) / 100 := by
      apply div_pos <;> linarith
    linarith

/-- C6: for every nonzero American-odds integer, the implied probability
follows the two documented branch formulas (as a percentage), lies strictly
between 0 and 100, evaluates to `1100/21 ≈ 52.38` at `-110` and to
`1000/23 ≈ 43.48` at `+130`, and a `-110 / -110` two-sided market has
implied probabilities summing to strictly more than 100. -/
theorem implied_probability_spec (odds : ℤ) (h : odds ≠ 0) :
    (odds < 0 →
      calculate_implied_probability odds = (-(odds : ℚ)) / (-(odds : ℚ) + 100) * 100) ∧
    (0 ≤ odds →
      calculate_implied_probability odds = 100 / ((odds : ℚ) + 100) * 100) ∧
    0 < calculate_implied_probability odds ∧
    calculate_implied_probability odds < 100 ∧
    calculate_implied_probability (-110) = 1100 / 21 ∧
    calculate_implied_probability 130 = 1000 / 23 ∧
    (5238 / 100 : ℚ) < 1100 / 21 ∧ (1100 / 21 : ℚ) < 5239 / 100 ∧
    (4347 / 100 : ℚ) < 1000 / 23 ∧ (1000 / 23 : ℚ) < 4348 / 100 ∧
    100 < calculate_implied_probability (-110) + calculate_implied_probability (-110) := by
  refine ⟨?_, ?_, ?_, ?_, by norm_num [calculate_implied_probability],
    by norm_num [calculate_implied_probability], by norm_num, by norm_num, by norm_num,
    by norm_num, by norm_num [calculate_implied_probability]⟩
  · intro hneg
    unfold calculate_implied_probability
    rw [if_pos hneg]
  · intro hpos
    unfold calculate_implied_probability
    rw [if_neg (not_lt.mpr hpos)]
  · unfold calculate_implied_probability
    rcases lt_or_ge odds 0 with hneg | hpos
    · rw [if_pos hneg]
      have h0 : (0 : ℚ) < -(odds : ℚ) := by
        simp only [neg_pos]
        exact_mod_cast hneg
      have h1 : (0 : ℚ) < -(odds : ℚ) + 100 := by linarith
      have := div_pos h0 h1
      linarith
    · rw [if_neg (not_lt.mpr hpos)]
      have h0 : (0 : ℚ) ≤ (odds : ℚ) := by exact_mod_cast hpos
      have h1 : (0 : ℚ) < (odds : ℚ) + 100 := by linarith
      have : (0 : ℚ) < 100 / ((odds : ℚ) + 100) := by positivity
      linarith
  · unfold calculate_implied_probability
    rcases lt_or_ge odds 0 with hneg | hpos
    · rw [if_pos hneg]
      have h0 : (0 : ℚ) < -(odds : ℚ) := by
        simp only [neg_pos]
        exact_mod_cast hneg
      have h1 : (0 : ℚ) < -(odds : ℚ) + 100 := by linarith
      have h2 : (-(odds : ℚ)) / (-(odds : ℚ) + 100) < 1 := by
        rw [div_lt_one h1]
        linarith
      linarith
    · rw [if_neg (not_lt.mpr hpos)]
      have h1 : (1 : ℤ) ≤ odds := lt_of_le_of_ne hpos (Ne.symm h)
      have h1' : (1 : ℚ) ≤ (odds : ℚ) := by exact_mod_cast h1
      have h2 : (0 : ℚ) < (odds : ℚ) + 100 := by linarith
      have h3 : 100 / ((odds : ℚ) + 100) < 1 := by
        rw [div_lt_one h2]
        linarith
      linarith

/-- Witness for C6 at `odds = -110`. -/
theorem implied_probability_spec_witness :
    (-110 : ℤ) ≠ 0 ∧ 0 < calculate_implied_probability (-110) ∧
      calculate_implied_probability (-110) < 100 := by
  have h := implied_probability_spec (-110) (by norm_num)
  exact ⟨by norm_num, h.2.2.1, h.2.2.2.1⟩

/-- C3 counterexample: an odds input of exactly 0 is not rejected — the
implied probability is silently computed, yielding 100 (the underdog
branch `100 / (0 + 100) * 100`). -/
theorem odds_zero_silently_computed : calculate_implied_probability 0 = 100 := by
  norm_num [calculate_implied_probability]

/-- C3 amended: no OddsMath operation validates an odds input of 0.
Implied probability silently returns 100, expected value is silently
computed (the potential profit is 0, so `EV = -(1 - p) * stake`), and a
parlay treats a 0-odds leg as decimal odds 1; only the Kelly computation
fails at odds 0, with an unhandled division by zero (`b = 0`), not an
`InvalidOdds` signal. -/
theorem odds_zero_behaviour (p stake bankroll kf : ℚ) :
    calculate_implied_probability 0 = 100 ∧
    calculate_ev p 0 stake = -((1 - p) * stake) ∧
    kelly_criterion p 0 bankroll kf = none ∧
    parlay_decimal [0] = 1 ∧
    parlay_american [0] = none := by
  refine ⟨by norm_num [calculate_implied_probability], ?_, ?_, ?_, ?_⟩
  · unfold calculate_ev
    norm_num
  · unfold kelly_criterion legDecimal
    norm_num
  · unfold parlay_decimal legDecimal
    norm_num
  · unfold parlay_american parlay_decimal legDecimal
    norm_num

/-- C10: for every win probability in `[0, 1]`, nonzero odds, nonnegative
bankroll and Kelly fraction in `[0, 1]`, the Kelly computation succeeds and
returns a stake between 0 and `kelly_fraction * bankroll`. -/
theorem kelly_stake_bounds (p : ℚ) (odds : ℤ) (bankroll kf : ℚ)
    (hp0 : 0 ≤ p) (hp1 : p ≤ 1) (h : odds ≠ 0) (hbr : 0 ≤ bankroll)
    (hkf0 : 0 ≤ kf) (hkf1 : kf ≤ 1) :
    ∃ s, kelly_criterion p odds bankroll kf = some s ∧
      0 ≤ s ∧ s ≤ kf * bankroll := by
  have hb : 0 < legDecimal odds - 1 := by
    have := one_lt_legDecimal h
    linarith
  have hbp : legDecimal odds - 1 ≠ 0 := ne_of_gt hb
  have hkp1 : ((legDecimal odds - 1) * p - (1 - p)) / (legDecimal odds - 1) ≤ 1 := by
    rw [div_le_one hb]
    have hpb : (legDecimal odds - 1) * p ≤ (legDecimal odds - 1) * 1 :=
      mul_le_mul_of_nonneg_left hp1 (le_of_lt hb)
    linarith
  refine ⟨bankroll *
      max 0 (((legDecimal odds - 1) * p - (1 - p)) / (legDecimal odds - 1) * kf),
      ?_, ?_, ?_⟩
  · simp only [kelly_criterion]
    rw [if_neg hbp]
  · exact mul_nonneg hbr (le_max_left 0 _)
  · have hmax : max 0 (((legDecimal odds - 1) * p - (1 - p)) / (legDecimal odds - 1) * kf)
        ≤ kf := by
      rcases max_choice 0 (((legDecimal odds - 1) * p - (1 - p)) / (legDecimal odds - 1) * kf)
        with hc | hc
      · rw [hc]
        exact hkf0
      · rw [hc]
        rcases le_total (((legDecimal odds - 1) * p - (1 - p)) / (legDecimal odds - 1)) 0
          with hkp0 | hkp0
        · have : ((legDecimal odds - 1) * p - (1 - p)) / (legDecimal odds - 1) * kf ≤ 0 :=
            mul_nonpos_of_nonpos_of_nonneg hkp0 hkf0
          linarith
        · calc ((legDecimal odds - 1) * p - (1 - p)) / (legDecimal odds - 1) * kf
              ≤ 1 * kf := mul_le_mul_of_nonneg_right hkp1 hkf0
            _ = kf := one_mul kf
    calc bankroll *
        max 0 (((legDecimal odds - 1) * p - (1 - p)) / (legDecimal odds - 1) * kf)
        ≤ bankroll * kf := mul_le_mul_of_nonneg_left hmax hbr
      _ = kf * bankroll := mul_comm _ _

/-- Witness for C10 at the spec scenario `win_prob = 0.55`, `odds = -110`,
`bankroll = 1000`, `fraction = 0.25`. -/
theorem kelly_stake_bounds_witness :
    (0 : ℚ) ≤ 11 / 20 ∧ (11 / 20 : ℚ) ≤ 1 ∧ (-110 : ℤ) ≠ 0 ∧ (0 : ℚ) ≤ 1000 ∧
      (0 : ℚ) ≤ 1 / 4 ∧ (1 / 4 : ℚ) ≤ 1 ∧
      ∃ s, kelly_criterion (11 / 20) (-110) 1000 (1 / 4) = some s ∧
        0 ≤ s ∧ s ≤ 1 / 4 * 1000 :=
  ⟨by norm_num, by norm_num, by norm_num, by norm_num, by norm_num, by norm_num,
    kelly_stake_bounds (11 / 20) (-110) 1000 (1 / 4) (by norm_num) (by norm_num)
      (by norm_num) (by norm_num) (by norm_num) (by norm_num)⟩

/-! ## Helper lemmas: association-list lookups, groupby keys, partition
sums, and stability of the descending sort -/

/-- Looking up a key `c` of the pairing list built over `l` yields `f c`
whenever `c ∈ l`. -/
lemma lookup_map_pair (f : StatCol → ℚ) {c : StatCol} :
    ∀ {l : List StatCol}, c ∈ l →
      (l.map fun d => (d, f d)).lookup c = some (f c) := by
  intro l hc
  induction l with
  | nil => simp at hc
  | cons d ds ih =>
      by_cases hdc : c = d
      · subst hdc
        simp
      · rcases List.mem_cons.mp hc with h1 | h2
        · exact absurd h1 hdc
        · have hbeq : (c == d) = false := beq_eq_false_iff_ne.mpr hdc
          simpa [List.lookup_cons, hbeq] using ih h2

/-- Looking up an absent key of the pairing list yields `none`. -/
lemma lookup_map_pair_none (f : StatCol → ℚ) {c : StatCol} :
    ∀ {l : List StatCol}, c ∉ l →
      (l.map fun d => (d, f d)).lookup c = none := by
  intro l hc
  induction l with
  | nil => simp
  | cons d ds ih =>
      have hdc : c ≠ d := fun h => hc (h ▸ List.mem_cons_self d ds)
      have hds : c ∉ ds := fun h => hc (List.mem_cons_of_mem d h)
      have hbeq : (c == d) = false := beq_eq_false_iff_ne.mpr hdc
      simpa [List.lookup_cons, hbeq] using ih hds

lemma sortedKeys_perm (l : List String) : List.Perm (sortedKeys l) l.dedup :=
  List.perm_insertionSort _ _

lemma sortedKeys_nodup (l : List String) : (sortedKeys l).Nodup :=
  (sortedKeys_perm l).symm.nodup l.nodup_dedup

lemma mem_sortedKeys {a : String} {l : List String} :
    a ∈ sortedKeys l ↔ a ∈ l :=
  (sortedKeys_perm l).mem_iff.trans List.mem_dedup

lemma sortedKeys_sorted (l : List String) : (sortedKeys l).Sorted (· ≤ ·) :=
  List.sorted_insertionSort _ _

/-- groupby keys are strictly increasing: sorted and without duplicates. -/
lemma sortedKeys_pairwise_lt (l : List String) :
    (sortedKeys l).Pairwise (· < ·) := by
  have h1 : (sortedKeys l).Pairwise (· ≤ ·) := sortedKeys_sorted l
  have h2 : (sortedKeys l).Pairwise (· ≠ ·) := sortedKeys_nodup l
  exact (h1.and h2).imp fun h => lt_of_le_of_ne h.1 h.2

/-- Summing a group aggregate over a complete, duplicate-free key list
recovers the sum over all records (the groups partition the records). -/
lemma sum_over_groups {α β : Type} [DecidableEq β] (key : α → β) (f : α → ℚ) :
    ∀ (ks : List β) (rs : List α), ks.Nodup → (∀ r ∈ rs, key r ∈ ks) →
      (ks.map fun k => ((rs.filter fun r => key r = k).map f).sum).sum
        = (rs.map f).sum := by
  intro ks
  induction ks with
  | nil =>
      intro rs _ hall
      have hrs : rs = [] := by
        cases rs with
        | nil => rfl
        | cons a l => exact absurd (hall a (List.mem_cons_self a l)) (List.not_mem_nil _)
      subst hrs
      simp
  | cons k ks ih =>
      intro rs hnd hall
      have hk : k ∉ ks := (List.nodup_cons.mp hnd).1
      have hnd' : ks.Nodup := (List.nodup_cons.mp hnd).2
      have hall' : ∀ r ∈ rs.filter (fun r => ¬ key r = k), key r ∈ ks := by
        intro r hr
        have hmem := List.mem_filter.mp hr
        rcases List.mem_cons.mp (hall r hmem.1) with h1 | h2
        · exact absurd h1 (by simpa using hmem.2)
        · exact h2
      have htail : ∀ k' ∈ ks,
          ((rs.filter fun r => key r = k').map f).sum
            = (((rs.filter fun r => ¬ key r = k).filter
                fun r => key r = k').map f).sum := by
        intro k' hk'
        have hkk : k' ≠ k := fun h => hk (h ▸ hk')
        have hfil : rs.filter (fun r => key r = k')
            = (rs.filter fun r => ¬ key r = k).filter fun r => key r = k' := by
          rw [List.filter_filter]
          apply List.filter_congr
          intro a _
          by_cases hc : key a = k'
          · have hne : ¬ key a = k := by rw [hc]; exact hkk
            simp [hc, hne, hkk]
          · simp [hc]
        rw [hfil]
      have hsplit :
          ((rs.filter fun r => key r = k).map f).sum
            + ((rs.filter fun r => ¬ key r = k).map f).sum
          = (rs.map f).sum := by
        have hperm : List.Perm
            ((rs.filter fun r => key r = k) ++ (rs.filter fun r => ¬ key r = k))
            rs := by
          simpa [decide_not] using
            List.filter_append_perm (fun r => decide (key r = k)) rs
        calc ((rs.filter fun r => key r = k).map f).sum
              + ((rs.filter fun r => ¬ key r = k).map f).sum
            = (((rs.filter fun r => key r = k)
                ++ (rs.filter fun r => ¬ key r = k)).map f).sum := by
              rw [List.map_append, List.sum_append]
          _ = (rs.map f).sum := (hperm.map f).sum_eq
      simp only [List.map_cons, List.sum_cons]
      rw [List.map_congr_left htail,
        ih (rs.filter fun r => ¬ key r = k) hnd' hall']
      linarith [hsplit]

/-- C4: for every sum-aggregated column present in the schema, the sum of
that column over the defense ranking equals its sum over the filtered
input records, nulls contributing 0 (conservation of totals). -/
theorem defense_sum_conservation (t : Table) (codes : List String)
    (c : StatCol) (hc : c ∈ aggCols t) :
    ((get_defense_stats t codes).map fun row => (row.2.lookup c).getD 0).sum
      = ((posFilter t codes).map fun r => (r.stats c).getD 0).sum := by
  have hne : aggCols t ≠ [] := fun h => by simp [h] at hc
  unfold get_defense_stats
  rw [if_neg hne, List.map_map]
  have hpt : ∀ k ∈ sortedKeys ((posFilter t codes).map (·.opponent_team)),
      ((fun row : String × List (StatCol × ℚ) => (row.2.lookup c).getD 0) ∘
        fun k => (k, (aggCols t).map fun c' =>
          (c', sumCol ((posFilter t codes).filter fun r => r.opponent_team = k) c'))) k
        = (((posFilter t codes).filter fun r => r.opponent_team = k).map
            fun r => (r.stats c).getD 0).sum := by
    intro k _
    simp only [Function.comp]
    rw [lookup_map_pair _ hc]
    simp [sumCol]
  rw [List.map_congr_left hpt]
  apply sum_over_groups (fun r : Row => r.opponent_team)
    (fun r => (r.stats c).getD 0)
  · exact sortedKeys_nodup _
  · intro r hr
    exact mem_sortedKeys.mpr (List.mem_map_of_mem _ hr)

/-- Witness for C4 on the concrete `tDef` fixture (one null entry). -/
theorem defense_sum_conservation_witness :
    StatCol.receiving_tds ∈ aggCols tDef ∧
    ((get_defense_stats tDef ["WR"]).map
        fun row => (row.2.lookup StatCol.receiving_tds).getD 0).sum
      = ((posFilter tDef ["WR"]).map
          fun r => (r.stats StatCol.receiving_tds).getD 0).sum :=
  ⟨by decide, defense_sum_conservation tDef ["WR"] .receiving_tds (by decide)⟩

/-- C7: if no requested measure column exists in the schema the defense
aggregation returns the empty table (no exception); a column absent from
the schema is omitted from every defense-ranking row rather than
zero-filled; and the leader aggregation still emits a row for every player
of the filtered slice, a null entry of a present column contributing 0 to
that player's sum. -/
theorem missing_column_tolerance (t : Table) (codes : List String) (X : StatCol) :
    (aggCols t = [] → get_defense_stats t codes = []) ∧
    (X ∉ t.schema → ∀ row ∈ get_defense_stats t codes, row.2.lookup X = none) ∧
    (X ∈ t.schema → ∀ p ∈ (posFilter t codes).map (·.player),
      ∃ row ∈ leaders_agg t codes, row.player = p ∧
        row.sums.lookup X
          = some ((((posFilter t codes).filter fun r => r.player = p).map
              fun r => (r.stats X).getD 0).sum)) := by
  refine ⟨?_, ?_, ?_⟩
  · intro h
    unfold get_defense_stats
    rw [if_pos h]
  · intro hX row hrow
    have hXa : X ∉ aggCols t := by
      intro hmem
      exact hX (by simpa using (List.mem_filter.mp hmem).2)
    unfold get_defense_stats at hrow
    by_cases hne : aggCols t = []
    · rw [if_pos hne] at hrow
      simp at hrow
    · rw [if_neg hne] at hrow
      rcases List.mem_map.mp hrow with ⟨k, _, rfl⟩
      exact lookup_map_pair_none _ hXa
  · intro hX p hp
    have hXa : X ∈ aggCols t := by
      unfold aggCols
      rw [List.mem_filter]
      exact ⟨by cases X <;> simp [statColOrder], by simpa using hX⟩
    have hpk : p ∈ sortedKeys ((posFilter t codes).map (·.player)) :=
      mem_sortedKeys.mpr hp
    simp only [leaders_agg]
    refine ⟨_, List.mem_map_of_mem _ hpk, rfl, ?_⟩
    rw [lookup_map_pair _ hXa]
    simp [sumCol]

/-- Witness for C7: the empty-schema fixture and the fixture with only
`passing_tds` present (one null entry for player `q1`). -/
theorem missing_column_tolerance_witness :
    (aggCols tEmptySchema = [] ∧ get_defense_stats tEmptySchema ["QB"] = []) ∧
    (StatCol.receiving_tds ∉ tMissing.schema ∧
      ∀ row ∈ get_defense_stats tMissing ["QB"],
        row.2.lookup StatCol.receiving_tds = none) ∧
    (StatCol.passing_tds ∈ tMissing.schema ∧ "q1" ∈ (posFilter tMissing ["QB"]).map (·.player) ∧
      ∃ row ∈ leaders_agg tMissing ["QB"], row.player = "q1" ∧
        row.sums.lookup StatCol.passing_tds
          = some ((((posFilter tMissing ["QB"]).filter fun r => r.player = "q1").map
              fun r => (r.stats StatCol.passing_tds).getD 0).sum)) := by
  have hmem : "q1" ∈ (posFilter tMissing ["QB"]).map (·.player) := by
    simp [posFilter, tMissing, mkRow]
  exact ⟨⟨by decide,
      (missing_column_tolerance tEmptySchema ["QB"] StatCol.receiving_tds).1 (by decide)⟩,
    ⟨by decide,
      (missing_column_tolerance tMissing ["QB"] StatCol.receiving_tds).2.1 (by decide)⟩,
    by decide, hmem,
    (missing_column_tolerance tMissing ["QB"] StatCol.passing_tds).2.2 (by decide) "q1" hmem⟩

lemma sortDescBy_perm (m : α → ℚ) (l : List α) :
    List.Perm (sortDescBy m l) l :=
  List.perm_insertionSort _ _

lemma sortDescByStr_perm (m : α → String) (l : List α) :
    List.Perm (sortDescByStr m l) l :=
  List.perm_insertionSort _ _

/-- The stable refinement produces a weakly descending measure sequence,
so it is one admissible output of the quicksort contract. -/
lemma sortDescBy_pairwise (m : α → ℚ) (l : List α) :
    (sortDescBy m l).Pairwise fun a b => m b ≤ m a := by
  haveI : IsTotal α fun a b => m b ≤ m a := ⟨fun a b => le_total (m b) (m a)⟩
  haveI : IsTrans α fun a b => m b ≤ m a := ⟨fun a b c h1 h2 => le_trans h2 h1⟩
  exact List.sorted_insertionSort _ _

lemma tDef_keys :
    sortedKeys ((posFilter tDef ["WR"]).map (·.opponent_team))
      = ["AAA", "BBB", "CCC"] := by
  simp [sortedKeys, posFilter, tDef, mkRow]
  decide

lemma tDef_stats :
    get_defense_stats tDef ["WR"]
      = [("AAA", [(StatCol.receiving_tds, (5 : ℚ))]),
         ("BBB", [(StatCol.receiving_tds, 5)]),
         ("CCC", [(StatCol.receiving_tds, 2)])] := by
  unfold get_defense_stats
  rw [if_neg (by decide), tDef_keys]
  simp [posFilter, tDef, mkRow, aggCols, statColOrder, sumCol, retdStats]
  norm_num

/-- C8 counterexample: on the `tDef` fixture the teams `AAA` and `BBB`
tie at 5 receiving TDs allowed, and the quicksort contract admits the
output ordering `BBB, AAA, CCC` — weakly descending on the primary
measure, yet with the tied teams in descending alphabetical order.  The
claimed ascending-alphabetical tie-break is therefore not a property the
code's `sort_values(sort_col, ascending=False)` (default unstable
`kind='quicksort'`) guarantees. -/
theorem worst_defense_tiebreak_counterexample :
    ∃ out : List (String × List (StatCol × ℚ)),
      IsSortValuesDescOf (defValue StatCol.receiving_tds)
        (get_defense_stats tDef ["WR"]) out ∧
      ¬ ∀ q : ℚ, ((out.filter
          fun row => defValue StatCol.receiving_tds row = q).Pairwise
          fun a b => a.1 < b.1) := by
  refine ⟨[("BBB", [(StatCol.receiving_tds, (5 : ℚ))]),
           ("AAA", [(StatCol.receiving_tds, 5)]),
           ("CCC", [(StatCol.receiving_tds, 2)])], ⟨?_, ?_⟩, ?_⟩
  · rw [tDef_stats]
    exact List.Perm.swap _ _ _
  · norm_num [defValue, List.lookup, List.pairwise_cons]
  · intro hall
    have h5 := hall 5
    rw [show ([("BBB", [(StatCol.receiving_tds, (5 : ℚ))]),
           ("AAA", [(StatCol.receiving_tds, 5)]),
           ("CCC", [(StatCol.receiving_tds, 2)])].filter
          fun row => defValue StatCol.receiving_tds row = 5)
        = [("BBB", [(StatCol.receiving_tds, (5 : ℚ))]),
           ("AAA", [(StatCol.receiving_tds, 5)])] from by
        norm_num [defValue, List.lookup, List.filter_cons]] at h5
    have hBA : ("BBB" : String) < "AAA" :=
      (List.pairwise_cons.mp h5).1 _ (List.mem_cons_self _ _)
    have hAB : ("AAA" : String) < "BBB" := by
      rw [String.lt_iff_toList_lt]
      decide
    exact absurd hBA (lt_asymm hAB)

/-- C8 amended: every admissible output of the worst-defense sort is
weakly descending on the primary (touchdown-like) measure and consists of
exactly the defense-ranking rows; when no two teams tie on that measure
the admissible output is unique, hence deterministic — but at ties the
unstable-quicksort contract fixes no order, so no alphabetical tie-break
is guaranteed. -/
theorem worst_defense_sorted_amended (t : Table) (codes : List String)
    (c : StatCol) (h : defSortCol t = some c)
    (out : List (String × List (StatCol × ℚ)))
    (hout : IsSortValuesDescOf (defValue c) (get_defense_stats t codes) out) :
    (out.Pairwise fun a b => defValue c b ≤ defValue c a) ∧
    (∀ row, row ∈ out ↔ row ∈ get_defense_stats t codes) ∧
    (((get_defense_stats t codes).Pairwise
        fun a b => defValue c a ≠ defValue c b) →
      ∀ out2, IsSortValuesDescOf (defValue c) (get_defense_stats t codes) out2 →
        out2 = out) := by
  refine ⟨hout.2, fun row => hout.1.mem_iff, ?_⟩
  intro hdist out2 hout2
  have hsymm : ∀ {x y : String × List (StatCol × ℚ)},
      defValue c x ≠ defValue c y → defValue c y ≠ defValue c x :=
    fun hxy => hxy.symm
  have hstrict : ∀ {o : List (String × List (StatCol × ℚ))},
      IsSortValuesDescOf (defValue c) (get_defense_stats t codes) o →
      o.Pairwise fun a b => defValue c b < defValue c a := by
    intro o ho
    have hne : o.Pairwise fun a b => defValue c a ≠ defValue c b :=
      (ho.1.pairwise_iff hsymm).mpr hdist
    exact (ho.2.and hne).imp fun hp => lt_of_le_of_ne hp.1 hp.2.symm
  haveI : IsAntisymm (String × List (StatCol × ℚ))
      (fun a b => defValue c b < defValue c a) :=
    ⟨fun a b h1 h2 => absurd h2 (lt_asymm h1)⟩
  exact List.eq_of_perm_of_sorted (hout2.1.trans hout.1.symm)
    (hstrict hout2) (hstrict hout)

/-- Witness for C8's amended statement: on the `tDef` fixture the stable
refinement `worst_defense_view` is one admissible quicksort output, and
the amended theorem applies to it. -/
theorem worst_defense_sorted_amended_witness :
    defSortCol tDef = some StatCol.receiving_tds ∧
    IsSortValuesDescOf (defValue StatCol.receiving_tds)
      (get_defense_stats tDef ["WR"]) (worst_defense_view tDef ["WR"]) ∧
    ((worst_defense_view tDef ["WR"]).Pairwise
      fun a b => defValue StatCol.receiving_tds b
        ≤ defValue StatCol.receiving_tds a) ∧
    (∀ row, row ∈ worst_defense_view tDef ["WR"]
      ↔ row ∈ get_defense_stats tDef ["WR"]) := by
  have hsc : defSortCol tDef = some StatCol.receiving_tds := by decide
  have hout : IsSortValuesDescOf (defValue StatCol.receiving_tds)
      (get_defense_stats tDef ["WR"]) (worst_defense_view tDef ["WR"]) := by
    constructor
    · unfold worst_defense_view
      rw [hsc]
      exact sortDescBy_perm _ _
    · unfold worst_defense_view
      rw [hsc]
      exact sortDescBy_pairwise _ _
  have h := worst_defense_sorted_amended tDef ["WR"] StatCol.receiving_tds hsc
    (worst_defense_view tDef ["WR"]) hout
  exact ⟨hsc, hout, h.1, h.2.1⟩

lemma sum_map_add (f g : α → ℚ) (l : List α) :
    (l.map fun x => f x + g x).sum = (l.map f).sum + (l.map g).sum := by
  induction l with
  | nil => simp
  | cons a l ih =>
      simp only [List.map_cons, List.sum_cons, ih]
      ring

lemma tdColsIn_subset_aggCols (t : Table) : ∀ c ∈ tdColsIn t, c ∈ aggCols t := by
  intro c hc
  have h := List.mem_filter.mp hc
  unfold aggCols
  rw [List.mem_filter]
  refine ⟨?_, h.2⟩
  have h1 := h.1
  simp only [tdColsList, List.mem_cons, List.not_mem_nil, or_false] at h1
  rcases h1 with rfl | rfl | rfl <;> simp [statColOrder]

/-- Every row of `get_td_leaders` comes from the groupby stage. -/
lemma mem_get_td_leaders {t : Table} {codes : List String} {isQB : Bool}
    {row : TdLeaderRow} (hrow : row ∈ get_td_leaders t codes isQB) :
    ∃ p ∈ sortedKeys ((posFilter t codes).map (·.player)),
      row = { player := p
              rushing_tds := sumCol ((posFilter t codes).filter
                fun r => r.player = p) .rushing_tds
              receiving_tds := sumCol ((posFilter t codes).filter
                fun r => r.player = p) .receiving_tds
              passing_tds := sumCol ((posFilter t codes).filter
                fun r => r.player = p) .passing_tds
              total_tds := (((posFilter t codes).filter
                fun r => r.player = p).map (rowTotalTds isQB)).sum
              recent_team := (((((posFilter t codes).filter
                fun r => r.player = p)).getLast?).map (·.team)).getD ""
              position := (((((posFilter t codes).filter
                fun r => r.player = p)).head?).map (·.position)).getD "" } := by
  simp only [get_td_leaders] at hrow
  have hsorted := List.mem_of_mem_take hrow
  cases isQB with
  | true =>
      rw [if_pos rfl] at hsorted
      have hmem := (sortDescBy_perm _ _).mem_iff.mp hsorted
      rcases List.mem_map.mp hmem with ⟨p, hp, hrow'⟩
      exact ⟨p, hp, hrow'.symm⟩
  | false =>
      rw [if_neg (by simp)] at hsorted
      have hmem := (sortDescBy_perm _ _).mem_iff.mp hsorted
      rcases List.mem_map.mp hmem with ⟨p, hp, hrow'⟩
      exact ⟨p, hp, hrow'.symm⟩

/-- Every row of `get_leaders` comes from `leaders_agg`. -/
lemma mem_get_leaders {t : Table} {codes : List String} {sortOption : SortOpt}
    {row : LeaderRow} (hrow : row ∈ get_leaders t codes sortOption) :
    row ∈ leaders_agg t codes := by
  simp only [get_leaders] at hrow
  by_cases hempty : (posFilter t codes).isEmpty
  · rw [if_pos hempty] at hrow
    simp at hrow
  · rw [if_neg hempty] at hrow
    have hsorted := List.mem_of_mem_take hrow
    cases sortOption with
    | touchdowns =>
        by_cases htd : tdColsIn t = []
        · rw [if_pos htd] at hsorted
          exact (sortDescByStr_perm _ _).mem_iff.mp hsorted
        · rw [if_neg htd] at hsorted
          exact (sortDescBy_perm _ _).mem_iff.mp hsorted
    | yards =>
        by_cases hyd : ydsColsIn t = []
        · rw [if_pos hyd] at hsorted
          exact (sortDescByStr_perm _ _).mem_iff.mp hsorted
        · rw [if_neg hyd] at hsorted
          exact (sortDescBy_perm _ _).mem_iff.mp hsorted
    | fantasyPoints =>
        by_cases hfp : StatCol.fantasy_points_ppr ∈ t.schema
        · rw [if_pos hfp] at hsorted
          exact (sortDescBy_perm _ _).mem_iff.mp hsorted
        · rw [if_neg hfp] at hsorted
          exact (sortDescByStr_perm _ _).mem_iff.mp hsorted

lemma sum_rowTotalTds_true (g : List Row) :
    (g.map (rowTotalTds true)).sum
      = sumCol g .passing_tds + sumCol g .rushing_tds := by
  unfold sumCol
  rw [← sum_map_add]
  congr 1

lemma sum_rowTotalTds_false (g : List Row) :
    (g.map (rowTotalTds false)).sum
      = sumCol g .rushing_tds + sumCol g .receiving_tds := by
  unfold sumCol
  rw [← sum_map_add]
  congr 1

/-- C5 amended: `analysis.py`'s `get_td_leaders` derives each player's
`total_tds` with the positional asymmetry — passing + rushing sums in QB
mode, rushing + receiving sums otherwise — while `nfl_app.py`'s
`get_leaders` instead derives `Total TDs` as the sum of ALL present TD
column sums for every position group. -/
theorem total_touchdowns_derivation (t : Table) (codes : List String)
    (isQB : Bool) (sortOption : SortOpt) :
    (∀ row ∈ get_td_leaders t codes isQB,
      row.total_tds = if isQB then row.passing_tds + row.rushing_tds
        else row.rushing_tds + row.receiving_tds) ∧
    (∀ row ∈ get_leaders t codes sortOption,
      row.totalTDs = if tdColsIn t = [] then none
        else some (((tdColsIn t).map
          fun c => (row.sums.lookup c).getD 0).sum)) := by
  constructor
  · intro row hrow
    rcases mem_get_td_leaders hrow with ⟨p, _, rfl⟩
    cases isQB with
    | true => exact sum_rowTotalTds_true _
    | false => exact sum_rowTotalTds_false _
  · intro row hrow
    have hagg := mem_get_leaders hrow
    simp only [leaders_agg] at hagg
    rcases List.mem_map.mp hagg with ⟨p, _, rfl⟩
    dsimp only
    by_cases htd : tdColsIn t = []
    · rw [if_pos htd, if_pos htd]
    · rw [if_neg htd, if_neg htd]
      congr 1
      congr 1
      apply List.map_congr_left
      intro c hc
      rw [lookup_map_pair _ (tdColsIn_subset_aggCols t c hc)]
      rfl

/-- Witness for C5's amended statement on the `tQBmix` fixture. -/
theorem total_touchdowns_derivation_witness :
    (∃ row ∈ get_td_leaders tQBmix ["QB"] true,
      row.total_tds = row.passing_tds + row.rushing_tds) ∧
    (∃ row ∈ get_leaders tQBmix ["QB"] SortOpt.touchdowns,
      row.totalTDs = some (((tdColsIn tQBmix).map
        fun c => (row.sums.lookup c).getD 0).sum)) := by
  constructor
  · have hne : get_td_leaders tQBmix ["QB"] true ≠ [] := by
      simp only [get_td_leaders, if_pos rfl]
      intro hcon
      have := congrArg List.length hcon
      simp [sortDescBy, posFilter, tQBmix, mkRow, sortedKeys,
        List.orderedInsert_length] at this
    rcases List.exists_mem_of_ne_nil _ hne with ⟨row, hrow⟩
    refine ⟨row, hrow, ?_⟩
    have h := (total_touchdowns_derivation tQBmix ["QB"] true .touchdowns).1 row hrow
    simpa using h
  · have hne : get_leaders tQBmix ["QB"] SortOpt.touchdowns ≠ [] := by
      simp only [get_leaders]
      rw [if_neg (by simp [posFilter, tQBmix, mkRow])]
      rw [if_neg (by simp [tdColsIn, tdColsList, tQBmix])]
      intro hcon
      have := congrArg List.length hcon
      simp [sortDescBy, leaders_agg, posFilter, tQBmix, mkRow, sortedKeys,
        List.orderedInsert_length] at this
    rcases List.exists_mem_of_ne_nil _ hne with ⟨row, hrow⟩
    refine ⟨row, hrow, ?_⟩
    have h := (total_touchdowns_derivation tQBmix ["QB"] true .touchdowns).2 row hrow
    rw [h, if_neg (by simp [tdColsIn, tdColsList, tQBmix])]

/-- C9: a matchup flag is emitted exactly for the triples
(scheduled regular-season game of the selected week, offense team,
position group) whose opponent is inside that position group's
weak-defense list, carrying the opponent's 1-based rank in that list; on
the spec scenario — the schedule holds one game `TeamX @ TeamB`, `TeamB`
is rank 1 in the WR weak-defense set and no other membership applies —
exactly one flag is emitted: `(game, TeamX, WR, rank 1)`. -/
theorem matchup_flags_spec (sched : List Game) (w : Int)
    (weakDefs : List (String × List String)) (fl : MatchupFlag) :
    (fl ∈ matchup_flags sched w weakDefs ↔
      ∃ g ∈ sched, g.week = w ∧ g.game_type = "REG" ∧ fl.game = g ∧
        ∃ pw ∈ weakDefs, fl.pos = pw.1 ∧ fl.opponent ∈ pw.2 ∧
          fl.rank = rankIn fl.opponent pw.2 ∧
          ((fl.offense = g.away_team ∧ fl.opponent = g.home_team) ∨
           (fl.offense = g.home_team ∧ fl.opponent = g.away_team))) ∧
    matchup_flags [gX] 7 weakX
      = [{ game := gX, offense := "TeamX", opponent := "TeamB",
           pos := "WR", rank := 1 }] := by
  refine ⟨?_, by decide⟩
  unfold matchup_flags
  simp only [List.mem_flatMap, List.mem_append, List.mem_filterMap,
    List.mem_filter, decide_eq_true_eq]
  constructor
  · rintro ⟨g, ⟨hg, hw, ht⟩, hin⟩
    rcases hin with hin | hin
    · rcases hin with ⟨pw, hpw, hsome⟩
      by_cases hc : g.home_team ∈ pw.2
      · rw [if_pos hc] at hsome
        cases hsome
        exact ⟨g, hg, hw, ht, rfl,
          pw, hpw, rfl, hc, rfl, Or.inl ⟨rfl, rfl⟩⟩
      · rw [if_neg hc] at hsome
        cases hsome
    · rcases hin with ⟨pw, hpw, hsome⟩
      by_cases hc : g.away_team ∈ pw.2
      · rw [if_pos hc] at hsome
        cases hsome
        exact ⟨g, hg, hw, ht, rfl,
          pw, hpw, rfl, hc, rfl, Or.inr ⟨rfl, rfl⟩⟩
      · rw [if_neg hc] at hsome
        cases hsome
  · rintro ⟨g, hg, hw, ht, hfg, pw, hpw, hfp, hopp, hrank, hside⟩
    refine ⟨g, ⟨hg, hw, ht⟩, ?_⟩
    rcases hside with ⟨hoff, hopp'⟩ | ⟨hoff, hopp'⟩
    · left
      refine ⟨pw, hpw, ?_⟩
      rw [if_pos (hopp' ▸ hopp)]
      cases fl
      simp only [Option.some.injEq, MatchupFlag.mk.injEq]
      refine ⟨hfg.symm, hoff.symm, hopp'.symm, hfp.symm, ?_⟩
      dsimp only at hrank hopp'
      rw [← hopp']
      exact hrank.symm
    · right
      refine ⟨pw, hpw, ?_⟩
      rw [if_pos (hopp' ▸ hopp)]
      cases fl
      simp only [Option.some.injEq, MatchupFlag.mk.injEq]
      refine ⟨hfg.symm, hoff.symm, hopp'.symm, hfp.symm, ?_⟩
      dsimp only at hrank hopp'
      rw [← hopp']
      exact hrank.symm

/-! ## Evaluating the consistency pipeline on the fixtures -/

lemma tNeg_vals_N :
    playerValsR tNeg ["RB", "FB"] .fantasy_points_ppr "N"
      = [(-4 : ℝ), 0, -2] := by
  simp [playerValsR, playerVals, posFilter, tNeg, mkRow, fpStats]

lemma tNeg_vals_P :
    playerValsR tNeg ["RB", "FB"] .fantasy_points_ppr "P"
      = [(4 : ℝ), 0, 2] := by
  simp [playerValsR, playerVals, posFilter, tNeg, mkRow, fpStats]

lemma tNeg_keys :
    sortedKeys ((posFilter tNeg ["RB", "FB"]).map (·.player)) = ["N", "P"] := by
  simp [sortedKeys, posFilter, tNeg, mkRow]
  decide

lemma sqrt_four : Real.sqrt 4 = 2 := by
  rw [show (4 : ℝ) = 2 ^ 2 by norm_num]
  exact Real.sqrt_sq (by norm_num)

lemma std_neg : sampleStd [(-4 : ℝ), 0, -2] = 2 := by
  unfold sampleStd pmean
  norm_num
  exact sqrt_four

lemma std_pos : sampleStd [(4 : ℝ), 0, 2] = 2 := by
  unfold sampleStd pmean
  norm_num
  exact sqrt_four

lemma cv_neg : cvOpt [(-4 : ℝ), 0, -2] = some (-100) := by
  unfold cvOpt
  rw [if_pos ⟨by norm_num, by unfold pmean; norm_num⟩, std_neg]
  unfold pmean
  norm_num

lemma cv_pos : cvOpt [(4 : ℝ), 0, 2] = some 100 := by
  unfold cvOpt
  rw [if_pos ⟨by norm_num, by unfold pmean; norm_num⟩, std_pos]
  unfold pmean
  norm_num

lemma tNeg_maxCV :
    cohortMaxCV tNeg ["RB", "FB"] .fantasy_points_ppr = some 100 := by
  unfold cohortMaxCV
  rw [tNeg_keys]
  rw [show List.filterMap
        (fun p => cvOpt (playerValsR tNeg ["RB", "FB"] .fantasy_points_ppr p))
        ["N", "P"] = [(-100 : ℝ), 100] from by
      simp [List.filterMap_cons, tNeg_vals_N, tNeg_vals_P, cv_neg, cv_pos]]
  show some (List.foldl max (-100 : ℝ) [100]) = some 100
  rw [show List.foldl max (-100 : ℝ) [100] = 100 from by
    simp only [List.foldl_cons, List.foldl_nil]
    rw [max_eq_right (by norm_num)]]

lemma tNeg_table :
    (consistency_table tNeg ["RB", "FB"] .fantasy_points_ppr).map
        (fun r => (r.player, r.rating))
      = [("N", some 200), ("P", some 0)] := by
  unfold consistency_table
  rw [tNeg_keys, tNeg_maxCV]
  simp only [List.map_cons, List.map_nil, tNeg_vals_N, tNeg_vals_P,
    cv_neg, cv_pos]
  norm_num [ratingOf, List.filter]

/-- C1 (code bug): on the `tNeg` fixture — a player whose statistic
averages negative — the retained consistency row for `N` carries rating
200, strictly above the 0-100 range the claim and the in-app help text
state. -/
theorem consistency_rating_out_of_range :
    (consistency_table tNeg ["RB", "FB"] .fantasy_points_ppr).map
        (fun r => (r.player, r.rating))
      = [("N", some 200), ("P", some 0)] ∧ ¬ ((200 : ℝ) ≤ 100) :=
  ⟨tNeg_table, by norm_num⟩

lemma tCohort_vals_A :
    playerValsR tCohort ["WR"] .fantasy_points_ppr "A" = [(0 : ℝ), 2, 4] := by
  simp [playerValsR, playerVals, posFilter, tCohort, mkRow, fpStats]

lemma tCohort_vals_B :
    playerValsR tCohort ["WR"] .fantasy_points_ppr "B" = [(0 : ℝ), 8] := by
  simp [playerValsR, playerVals, posFilter, tCohort, mkRow, fpStats]

lemma tCohort_keys :
    sortedKeys ((posFilter tCohort ["WR"]).map (·.player)) = ["A", "B"] := by
  simp [sortedKeys, posFilter, tCohort, mkRow]
  decide

lemma std_A : sampleStd [(0 : ℝ), 2, 4] = 2 := by
  unfold sampleStd pmean
  norm_num
  exact sqrt_four

lemma cv_A : cvOpt [(0 : ℝ), 2, 4] = some 100 := by
  unfold cvOpt
  rw [if_pos ⟨by norm_num, by unfold pmean; norm_num⟩, std_A]
  unfold pmean
  norm_num

lemma std_B : sampleStd [(0 : ℝ), 8] = Real.sqrt 32 := by
  unfold sampleStd pmean
  norm_num

lemma cv_B : cvOpt [(0 : ℝ), 8] = some (Real.sqrt 32 / 4 * 100) := by
  unfold cvOpt
  rw [if_pos ⟨by norm_num, by unfold pmean; norm_num⟩, std_B]
  unfold pmean
  norm_num

lemma sqrt32_gt_four : (4 : ℝ) < Real.sqrt 32 := by
  rw [Real.lt_sqrt (by norm_num)]
  norm_num

lemma tCohort_maxCV :
    cohortMaxCV tCohort ["WR"] .fantasy_points_ppr
      = some (Real.sqrt 32 / 4 * 100) := by
  unfold cohortMaxCV
  rw [tCohort_keys]
  rw [show List.filterMap
        (fun p => cvOpt (playerValsR tCohort ["WR"] .fantasy_points_ppr p))
        ["A", "B"] = [(100 : ℝ), Real.sqrt 32 / 4 * 100] from by
      simp [List.filterMap_cons, tCohort_vals_A, tCohort_vals_B, cv_A, cv_B]]
  show some (List.foldl max (100 : ℝ) [Real.sqrt 32 / 4 * 100])
    = some (Real.sqrt 32 / 4 * 100)
  rw [show List.foldl max (100 : ℝ) [Real.sqrt 32 / 4 * 100]
      = Real.sqrt 32 / 4 * 100 from by
    simp only [List.foldl_cons, List.foldl_nil]
    rw [max_eq_right (by nlinarith [sqrt32_gt_four])]]

lemma tCohort_specMaxCV :
    specResultSetMaxCV tCohort ["WR"] .fantasy_points_ppr = some 100 := by
  unfold specResultSetMaxCV
  rw [tCohort_keys]
  rw [show (["A", "B"].filter
        fun p => 3 ≤ (playerValsR tCohort ["WR"] .fantasy_points_ppr p).length)
      = ["A"] from by
    simp [List.filter_cons, tCohort_vals_A, tCohort_vals_B]]
  rw [show List.filterMap
        (fun p => cvOpt (playerValsR tCohort ["WR"] .fantasy_points_ppr p))
        ["A"] = [(100 : ℝ)] from by
      simp [List.filterMap_cons, tCohort_vals_A, cv_A]]
  rfl

lemma tCohort_table :
    (consistency_table tCohort ["WR"] .fantasy_points_ppr).map
        (fun r => (r.player, r.rating))
      = [("A", some (100 - 100 / (Real.sqrt 32 / 4 * 100) * 100))] := by
  unfold consistency_table
  rw [tCohort_keys, tCohort_maxCV]
  simp only [List.map_cons, List.map_nil, tCohort_vals_A, tCohort_vals_B,
    cv_A, cv_B]
  norm_num [ratingOf, List.filter]

lemma tCohort_spec_table :
    (consistency_table_specNormalized tCohort ["WR"] .fantasy_points_ppr).map
        (fun r => (r.player, r.rating))
      = [("A", some 0)] := by
  unfold consistency_table_specNormalized
  rw [tCohort_keys, tCohort_specMaxCV]
  simp only [List.map_cons, List.map_nil, tCohort_vals_A, tCohort_vals_B,
    cv_A, cv_B]
  norm_num [ratingOf, List.filter]

/-- C2 counterexample: on the `tCohort` fixture the player `B`, excluded
from the output for having only two games, still holds the maximum CV the
code normalizes against, so the retained player `A` is rated
`100 - 400 / sqrt 32 > 0`; normalizing against the result set's own
maximum CV — as the claim states — would rate `A` exactly 0. -/
theorem consistency_normalization_counterexample :
    (consistency_table tCohort ["WR"] .fantasy_points_ppr).map
        (fun r => (r.player, r.rating))
      = [("A", some (100 - 100 / (Real.sqrt 32 / 4 * 100) * 100))] ∧
    (consistency_table_specNormalized tCohort ["WR"] .fantasy_points_ppr).map
        (fun r => (r.player, r.rating))
      = [("A", some 0)] ∧
    (100 - 100 / (Real.sqrt 32 / 4 * 100) * 100 : ℝ) ≠ 0 := by
  refine ⟨tCohort_table, tCohort_spec_table, ?_⟩
  have h4 := sqrt32_gt_four
  have hpos : (0 : ℝ) < Real.sqrt 32 / 4 * 100 := by nlinarith
  have hlt : 100 / (Real.sqrt 32 / 4 * 100) * 100 < 100 := by
    rw [div_mul_eq_mul_div, div_lt_iff₀ hpos]
    nlinarith
  intro hcon
  nlinarith

/-- C2 amended: the consistency output retains exactly the players with at
least three (non-null) observations, and each retained player's rating is
normalized against the maximum CV of the whole position slice — the
pre-filter cohort, including the players the `Games >= 3` filter then
drops — not the maximum CV of the returned result set. -/
theorem consistency_membership_and_normalization (t : Table)
    (codes : List String) (sc : StatCol) :
    (∀ r ∈ consistency_table t codes sc,
      3 ≤ r.games ∧ r.games = (playerValsR t codes sc r.player).length ∧
      r.rating = ratingOf (cohortMaxCV t codes sc)
        (cvOpt (playerValsR t codes sc r.player))) ∧
    (∀ p ∈ (posFilter t codes).map (·.player),
      3 ≤ (playerValsR t codes sc p).length →
        ∃ r ∈ consistency_table t codes sc, r.player = p) := by
  constructor
  · intro r hr
    have hmem := List.mem_filter.mp hr
    have hgames : 3 ≤ r.games := by simpa using hmem.2
    rcases List.mem_map.mp hmem.1 with ⟨p, _, rfl⟩
    exact ⟨hgames, rfl, rfl⟩
  · intro p hp hlen
    have hpk : p ∈ sortedKeys ((posFilter t codes).map (·.player)) :=
      mem_sortedKeys.mpr hp
    refine ⟨_, List.mem_filter.mpr ⟨List.mem_map_of_mem _ hpk, by simpa⟩, rfl⟩

lemma exists_of_map_eq_singleton {α β : Type} {f : α → β} {l : List α} {y : β}
    (h : l.map f = [y]) : ∃ x ∈ l, f x = y := by
  cases l with
  | nil => simp at h
  | cons a as =>
      simp only [List.map_cons, List.cons.injEq] at h
      exact ⟨a, List.mem_cons_self _ _, h.1⟩

lemma tQBmix_leaders :
    (get_leaders tQBmix ["QB"] SortOpt.touchdowns).map
        (fun r => (r.player, r.totalTDs, r.sums))
      = [("Q", some 4,
          [(StatCol.passing_tds, (2 : ℚ)), (StatCol.rushing_tds, 1),
           (StatCol.receiving_tds, 1)])] := by
  simp [get_leaders, leaders_agg, posFilter, tQBmix, mkRow, sortedKeys,
    sortDescBy, sortDescByStr, sumCol, aggCols, statColOrder, tdColsIn,
    tdColsList, ydsColsIn, ydsColsList, tdStats]
  norm_num

/-- C5 counterexample: in `nfl_app.py`'s leader table for the QB position
group, player `Q`'s derived `Total TDs` is 4 — the sum of all three TD
column sums — whereas the claimed `passing_tds + rushing_tds` is 3. -/
theorem get_leaders_total_tds_counterexample :
    ∃ row ∈ get_leaders tQBmix ["QB"] SortOpt.touchdowns,
      row.player = "Q" ∧ row.totalTDs = some 4 ∧
      (row.sums.lookup StatCol.passing_tds).getD 0
          + (row.sums.lookup StatCol.rushing_tds).getD 0 = 3 ∧
      row.totalTDs ≠ some ((row.sums.lookup StatCol.passing_tds).getD 0
          + (row.sums.lookup StatCol.rushing_tds).getD 0) := by
  rcases exists_of_map_eq_singleton tQBmix_leaders with ⟨row, hrow, hfields⟩
  simp only [Prod.mk.injEq] at hfields
  obtain ⟨hp, htd, hsums⟩ := hfields
  have h1 : (StatCol.rushing_tds == StatCol.passing_tds) = false := rfl
  have h2 : (StatCol.rushing_tds == StatCol.rushing_tds) = true := rfl
  refine ⟨row, hrow, hp, htd, ?_, ?_⟩
  · rw [hsums]
    norm_num [List.lookup, h1, h2]
  · rw [hsums, htd]
    norm_num [List.lookup, h1, h2]

/-- Witness for C2's amended statement on the `tCohort` fixture. -/
theorem consistency_membership_witness :
    (∃ r ∈ consistency_table tCohort ["WR"] .fantasy_points_ppr,
      3 ≤ r.games ∧
      r.rating = ratingOf (cohortMaxCV tCohort ["WR"] .fantasy_points_ppr)
        (cvOpt (playerValsR tCohort ["WR"] .fantasy_points_ppr r.player))) ∧
    ("A" ∈ (posFilter tCohort ["WR"]).map (·.player) ∧
      3 ≤ (playerValsR tCohort ["WR"] .fantasy_points_ppr "A").length ∧
      ∃ r ∈ consistency_table tCohort ["WR"] .fantasy_points_ppr,
        r.player = "A") := by
  have hne : consistency_table tCohort ["WR"] .fantasy_points_ppr ≠ [] := by
    intro hcon
    have := congrArg (List.map fun r => (r.player, r.rating)) hcon
    rw [tCohort_table] at this
    simp at this
  have hmemA : "A" ∈ (posFilter tCohort ["WR"]).map (·.player) := by
    simp [posFilter, tCohort, mkRow]
  have hlenA : 3 ≤ (playerValsR tCohort ["WR"] .fantasy_points_ppr "A").length := by
    rw [tCohort_vals_A]
    norm_num
  constructor
  · rcases List.exists_mem_of_ne_nil _ hne with ⟨r, hr⟩
    have h := (consistency_membership_and_normalization tCohort ["WR"]
      .fantasy_points_ppr).1 r hr
    exact ⟨r, hr, h.1, h.2.2⟩
  · exact ⟨hmemA, hlenA,
      (consistency_membership_and_normalization tCohort ["WR"]
        .fantasy_points_ppr).2 "A" hmemA hlenA⟩

end NFLMatchups
